import Mathlib

/-!
Verification of the gold-trade ledger (src/src/App.tsx).

Shallow embedding conventions:
* JS numbers carrying money and weights become rationals.
* Date strings become integer epoch timestamps (the code only ever compares the
  values obtained through getTime, which is monotone in the stored string).
* The generated identifiers (Date.now and friends) are passed in as parameters.
* Each mutation handler becomes a pure function from the trades list to the new
  trades list; an early return before setTrades is modelled by returning the
  input list unchanged together with an outcome flag.
-/

namespace GoldTrade

/-- Sell record (App.tsx lines 40-49). -/
structure Sell where
  id : Nat
  trade_id : Nat
  sell_price : ℚ
  quantity : ℚ
  sell_date : Int
  fee : ℚ
  notes : Option String
  batch_id : Option String
deriving Repr, DecidableEq

/-- Trade (buy-lot) record (App.tsx lines 51-58). -/
structure Trade where
  id : Nat
  buy_price : ℚ
  quantity : ℚ
  buy_date : Int
  notes : Option String
  sells : List Sell
deriving Repr, DecidableEq

/-- Overdraft tolerance 0.00001 (App.tsx line 213). -/
def sellEps : ℚ := 1 / 100000

/-- Fully-sold display tolerance 0.0001 (App.tsx lines 362 and 1020). -/
def fullySoldEps : ℚ := 1 / 10000

/-- reduce((acc, s) => acc + s.quantity, 0), the sold-weight accumulator used
throughout the component. -/
def sumQuantities (sells : List Sell) : ℚ :=
  sells.foldl (fun acc s => acc + s.quantity) 0

/-- Total quantity already sold from a trade. -/
def soldWeight (t : Trade) : ℚ := sumQuantities t.sells

/-- remaining = t.quantity - soldWeight (App.tsx lines 175, 566, 1019). -/
def remainingWeight (t : Trade) : ℚ := t.quantity - soldWeight t

/-- Fields collected by the buy form (formData, lines 95-100). -/
structure TradeData where
  buy_price : ℚ
  quantity : ℚ
  buy_date : Int
  notes : Option String
deriving Repr, DecidableEq

/-- Fields collected by the sell form (sellFormData, lines 102-108). -/
structure SellData where
  sell_price : ℚ
  quantity : ℚ
  sell_date : Int
  fee : ℚ
  notes : Option String
deriving Repr, DecidableEq

/-- handleSubmit, edit branch (lines 139-141): the matching trade's fields are
replaced, its sells are kept; no re-validation happens. -/
def handleEditTrade (trades : List Trade) (editId : Nat) (td : TradeData) : List Trade :=
  trades.map fun t =>
    if t.id == editId then
      { t with buy_price := td.buy_price, quantity := td.quantity,
               buy_date := td.buy_date, notes := td.notes }
    else t

/-- handleSubmit, create branch (lines 143-148): a fresh trade with no sells is
prepended. -/
def handleCreateTrade (trades : List Trade) (newId : Nat) (td : TradeData) : List Trade :=
  { id := newId, buy_price := td.buy_price, quantity := td.quantity,
    buy_date := td.buy_date, notes := td.notes, sells := [] } :: trades

/-- Outcome of the single-sale branch of handleSellSubmit. overdraft is the
alert at line 214; notFound covers the early returns at lines 197 and 208. -/
inductive SellOutcome
  | notFound
  | overdraft
  | ok
deriving Repr, DecidableEq

/-- Spreading sellData over an existing sell ({ ...s, ...sellData }, line 221):
trade_id and batch_id are kept. -/
def applySellData (sd : SellData) (s : Sell) : Sell :=
  { s with sell_price := sd.sell_price, quantity := sd.quantity,
           sell_date := sd.sell_date, fee := sd.fee, notes := sd.notes }

/-- otherSells (line 211): all sells except the one being edited; when no sale
is being edited the comparison with undefined keeps every sell. -/
def otherSells (t : Trade) (excluding : Option Nat) : List Sell :=
  t.sells.filter fun s =>
    match excluding with
    | some e => !(s.id == e)
    | none => true

/-- totalSoldOther (line 212). -/
def otherSoldWeight (t : Trade) (excluding : Option Nat) : ℚ :=
  sumQuantities (otherSells t excluding)

/-- handleSellSubmit, single-sale branch (lines 195-234). editingSell is the
pair (sell id, trade id) of the sale being edited, when any. Rejections return
the ledger unchanged because the handler returns before calling setTrades. -/
def handleSellSubmitSingle (trades : List Trade) (sellingTradeId : Option Nat)
    (editingSell : Option (Nat × Nat)) (newId : Nat) (sd : SellData) :
    List Trade × SellOutcome :=
  match sellingTradeId.orElse (fun _ => editingSell.map Prod.snd) with
  | none => (trades, .notFound)
  | some tradeId =>
    match trades.find? (fun t => t.id == tradeId) with
    | none => (trades, .notFound)
    | some trade =>
      if sd.quantity > (trade.quantity - otherSoldWeight trade (editingSell.map Prod.fst)) + sellEps then
        (trades, .overdraft)
      else
        match editingSell with
        | some e =>
          (trades.map fun t =>
            if t.id == tradeId then
              { t with sells := t.sells.map fun s => if s.id == e.1 then applySellData sd s else s }
            else t, .ok)
        | none =>
          let newSell : Sell :=
            { id := newId, trade_id := tradeId, sell_price := sd.sell_price,
              quantity := sd.quantity, sell_date := sd.sell_date, fee := sd.fee,
              notes := sd.notes, batch_id := none }
          (trades.map fun t =>
            if t.id == tradeId then { t with sells := newSell :: t.sells } else t, .ok)

/-- Fields consumed by the batch branch of the sell form; fee is the total fee. -/
structure BatchSellData where
  sell_price : ℚ
  sell_date : Int
  fee : ℚ
  notes : Option String
deriving Repr, DecidableEq

/-- Per-trade update inside the batch branch of handleSellSubmit (lines
172-191): a selected trade with positive remaining balance gets one new sell
for its whole remaining quantity, fee split by the number of selected ids. -/
def batchSellUpdate (selectedTradeIds : List Nat) (batchId : String) (genId : Nat → Nat)
    (bd : BatchSellData) (t : Trade) : Trade :=
  if selectedTradeIds.contains t.id then
    let soldW := sumQuantities t.sells
    let remaining := t.quantity - soldW
    if remaining ≤ 0 then t
    else
      { t with sells :=
          { id := genId t.id, trade_id := t.id, sell_price := bd.sell_price,
            quantity := remaining, sell_date := bd.sell_date,
            fee := bd.fee / (selectedTradeIds.length : ℚ), notes := bd.notes,
            batch_id := some batchId } :: t.sells }
  else t

/-- handleSellSubmit, batch branch (lines 163-191). batchId stands for the
generated batch-id string and genId for the per-sale generated ids. -/
def handleBatchSell (trades : List Trade) (selectedTradeIds : List Nat) (batchId : String)
    (genId : Nat → Nat) (bd : BatchSellData) : List Trade :=
  trades.map (batchSellUpdate selectedTradeIds batchId genId bd)

/-- handleDelete (lines 251-254), restricted to the trades list. -/
def handleDelete (trades : List Trade) (tradeId : Nat) : List Trade :=
  trades.filter fun t => !(t.id == tradeId)

/-- handleDeleteSell (lines 256-261). -/
def handleDeleteSell (trades : List Trade) (tradeId sellId : Nat) : List Trade :=
  trades.map fun t =>
    if t.id == tradeId then { t with sells := t.sells.filter fun s => !(s.id == sellId) } else t

/-- handleDeleteBatchSell (lines 263-268). -/
def handleDeleteBatchSell (trades : List Trade) (tradeId : Nat) (sellIds : List Nat) : List Trade :=
  trades.map fun t =>
    if t.id == tradeId then { t with sells := t.sells.filter fun s => !(sellIds.contains s.id) } else t

/-- handleDeleteBatch (lines 379-381): keeps only the trades that have no sell
with the given batch id. -/
def handleDeleteBatch (trades : List Trade) (batchId : String) : List Trade :=
  trades.filter fun t => !(t.sells.any fun s => s.batch_id == some batchId)

/-- Profit of one sale against its owner trade (lines 301, 348, 387, 1023...). -/
def saleProfit (t : Trade) (s : Sell) : ℚ :=
  (s.sell_price - t.buy_price) * s.quantity - s.fee

/-- Result of the stats useMemo. -/
structure Stats where
  totalProfit : ℚ
  activeWeight : ℚ
deriving Repr, DecidableEq

/-- stats useMemo (lines 292-310), as the fold the two nested forEach loops
perform over the accumulator pair. -/
def stats (trades : List Trade) : Stats :=
  trades.foldl
    (fun acc t =>
      let soldW := sumQuantities t.sells
      let acc1 : Stats := { acc with activeWeight := acc.activeWeight + (t.quantity - soldW) }
      t.sells.foldl
        (fun a s =>
          { a with totalProfit := a.totalProfit + ((s.sell_price - t.buy_price) * s.quantity - s.fee) })
        acc1)
    { totalProfit := 0, activeWeight := 0 }

/-- The synthetic batch record built by displayItems (line 313). -/
structure Batch where
  id : String
  trades : List Trade
  batchDate : Int
  sellPrice : ℚ
  totalProfit : ℚ
  totalFee : ℚ
  totalQuantity : ℚ
  buyPrice : ℚ
deriving Repr, DecidableEq

/-- One trade of the first displayItems pass (the forEach body, lines
316-339): a trade whose first sell carrying a batch id exists joins that
batch — growing an existing accumulated batch or opening a new one seeded
from that sell — and any other trade is standalone. -/
def classifyStep (acc : List Batch × List Trade) (t : Trade) : List Batch × List Trade :=
  match t.sells.find? (fun s => s.batch_id.isSome) with
  | some bs =>
    match bs.batch_id with
    | some bId =>
      if acc.1.any (fun b => b.id == bId) then
        (acc.1.map fun b =>
          if b.id == bId then
            { b with trades := b.trades ++ [t], totalQuantity := b.totalQuantity + t.quantity }
          else b, acc.2)
      else
        (acc.1 ++ [{ id := bId, trades := [t], batchDate := bs.sell_date,
                     sellPrice := bs.sell_price, totalProfit := 0, totalFee := 0,
                     totalQuantity := t.quantity, buyPrice := 0 }], acc.2)
    | none => (acc.1, acc.2 ++ [t])
  | none => (acc.1, acc.2 ++ [t])

/-- First pass of displayItems (lines 316-339): partition into batches (in
first-seen order, like string-keyed object insertion order) and standalone
trades. -/
def classifyTrades (trades : List Trade) : List Batch × List Trade :=
  trades.foldl classifyStep ([], [])

/-- Second pass of displayItems (lines 342-354): accumulate total buy cost,
batch profit and batch fee over the member trades, then derive the weighted
buy price. -/
def finalizeBatch (batch : Batch) : Batch :=
  let acc := batch.trades.foldl
    (fun (acc : ℚ × ℚ × ℚ) t =>
      let acc1 := (acc.1 + t.buy_price * t.quantity, acc.2.1, acc.2.2)
      t.sells.foldl
        (fun a s =>
          if s.batch_id == some batch.id then
            (a.1, a.2.1 + ((s.sell_price - t.buy_price) * s.quantity - s.fee), a.2.2 + s.fee)
          else a)
        acc1)
    (0, batch.totalProfit, batch.totalFee)
  { batch with totalProfit := acc.2.1, totalFee := acc.2.2,
               buyPrice := acc.1 / batch.totalQuantity }

/-- The finished batch views of the current ledger. -/
def displayBatches (trades : List Trade) : List Batch :=
  (classifyTrades trades).1.map finalizeBatch

/-- The trades rendered standalone. -/
def standaloneOf (trades : List Trade) : List Trade :=
  (classifyTrades trades).2

/-- Payload of one entry of the display list. -/
inductive ItemData
  | trade (t : Trade)
  | batch (b : Batch)
deriving Repr, DecidableEq

/-- One entry of the display list (lines 356-371). -/
structure DisplayItem where
  itemKey : String
  isFullySold : Bool
  timestamp : Int
  data : ItemData
deriving Repr, DecidableEq

/-- The sort comparator at lines 373-376, read as the relation "a is ordered no
later than b": open before closed, then descending timestamp. -/
def itemLE (a b : DisplayItem) : Bool :=
  if a.isFullySold != b.isFullySold then !a.isFullySold
  else decide (b.timestamp ≤ a.timestamp)

/-- Propositional form of the comparator. -/
def itemRel (a b : DisplayItem) : Prop := itemLE a b = true

instance : DecidableRel itemRel := fun a b => instDecidableEqBool (itemLE a b) true

/-- The unsorted item list of displayItems (lines 356-371): standalone items
keyed by buy date and their fully-sold flag, batch items keyed by batch date
and always marked fully sold. -/
def displayItemsRaw (trades : List Trade) : List DisplayItem :=
  (standaloneOf trades).map (fun t =>
    { itemKey := "trade-" ++ toString t.id,
      data := ItemData.trade t,
      timestamp := t.buy_date,
      isFullySold := decide (remainingWeight t < fullySoldEps) })
  ++ (displayBatches trades).map (fun b =>
    { itemKey := "batch-" ++ b.id,
      data := ItemData.batch b,
      timestamp := b.batchDate,
      isFullySold := true })

/-- displayItems useMemo (lines 312-377): the item list sorted by the
comparator (modelled by a stable comparison sort, as Array.prototype.sort). -/
def displayItems (trades : List Trade) : List DisplayItem :=
  (displayItemsRaw trades).insertionSort itemRel

/-- What the persisted payload looked like at load time (lines 111-121):
missing key, a payload JSON.parse throws on, or a parsed trades list. -/
inductive LoadPayload
  | absent
  | malformed
  | parsed (trades : List Trade)

/-- The load effect: only a successfully parsed payload replaces the initial
empty ledger; the catch branch just logs, so a malformed payload is discarded. -/
def loadTrades (saved : LoadPayload) : List Trade :=
  match saved with
  | .absent => []
  | .malformed => []
  | .parsed ts => ts

/-- The lot-accounting invariant of spec section 8. -/
def Inv (trades : List Trade) : Prop :=
  ∀ t ∈ trades, soldWeight t ≤ t.quantity + sellEps

/-- Structural well-formedness the data model promises: unique trade ids,
unique sell ids within a trade, nonnegative sale quantities, and the
invariant. -/
def LedgerOK (trades : List Trade) : Prop :=
  (trades.map Trade.id).Nodup ∧
  ∀ t ∈ trades, (∀ s ∈ t.sells, 0 ≤ s.quantity) ∧ (t.sells.map Sell.id).Nodup ∧
    soldWeight t ≤ t.quantity + sellEps

instance : DecidablePred Inv := fun trades =>
  List.decidableBAll _ trades

instance : DecidablePred LedgerOK := fun _ =>
  instDecidableAnd

/-- The user intents of spec section 6. -/
inductive Op
  | createTrade (newId : Nat) (td : TradeData)
  | editTrade (editId : Nat) (td : TradeData)
  | createSell (tradeId newId : Nat) (sd : SellData)
  | editSell (tradeId sellId : Nat) (sd : SellData)
  | deleteTrade (tradeId : Nat)
  | deleteSell (tradeId sellId : Nat)
  | deleteBatchSell (tradeId : Nat) (sellIds : List Nat)
  | batchSell (selectedTradeIds : List Nat) (batchId : String) (genId : Nat → Nat)
      (bd : BatchSellData)
  | deleteBatch (batchId : String)

/-- Dispatch of one intent to its handler. -/
def applyOp (trades : List Trade) : Op → List Trade
  | .createTrade newId td => handleCreateTrade trades newId td
  | .editTrade editId td => handleEditTrade trades editId td
  | .createSell tradeId newId sd => (handleSellSubmitSingle trades (some tradeId) none newId sd).1
  | .editSell tradeId sellId sd =>
      (handleSellSubmitSingle trades none (some (sellId, tradeId)) 0 sd).1
  | .deleteTrade tradeId => handleDelete trades tradeId
  | .deleteSell tradeId sellId => handleDeleteSell trades tradeId sellId
  | .deleteBatchSell tradeId sellIds => handleDeleteBatchSell trades tradeId sellIds
  | .batchSell sel bId genId bd => handleBatchSell trades sel bId genId bd
  | .deleteBatch bId => handleDeleteBatch trades bId

/-- A sequence of intents applied in order. -/
def applyOps (trades : List Trade) (ops : List Op) : List Trade :=
  ops.foldl applyOp trades

/-- Validity of one intent against the current ledger: form inputs in range
and generated identifiers fresh, as the data model assumes. -/
def validOp (trades : List Trade) : Op → Bool
  | .createTrade newId td =>
      decide (0 ≤ td.quantity) && !((trades.map Trade.id).contains newId)
  | .editTrade _ td => decide (0 ≤ td.quantity)
  | .createSell _ newId sd =>
      decide (0 ≤ sd.quantity) && trades.all fun t => !((t.sells.map Sell.id).contains newId)
  | .editSell _ _ sd => decide (0 ≤ sd.quantity)
  | .batchSell _ _ genId _ =>
      trades.all fun t => !((t.sells.map Sell.id).contains (genId t.id))
  | _ => true

/-- Validity of a sequence: each intent valid in the state it runs in. -/
def validSeq (trades : List Trade) : List Op → Bool
  | [] => true
  | op :: ops => validOp trades op && validSeq (applyOp trades op) ops

/-- Detects the edit-lot intent. -/
def isEditTradeOp : Op → Bool
  | .editTrade _ _ => true
  | _ => false

/-- Total fee recorded against one batch id across the ledger (the created
sales of a batch sell are exactly the sales carrying its batch id). -/
def batchFees (trades : List Trade) (batchId : String) : ℚ :=
  (trades.map fun t => ((t.sells.filter fun s => s.batch_id == some batchId).map Sell.fee).sum).sum

/-- Scenario A of spec section 8: a lot with no sales. -/
def lotA : Trade :=
  { id := 1, buy_price := 500, quantity := 10, buy_date := 0, notes := none, sells := [] }

/-- Scenario C lot: quantity 10 with a sale of 6 already recorded. -/
def lotC : Trade :=
  { id := 1, buy_price := 500, quantity := 10, buy_date := 0, notes := none,
    sells := [{ id := 5, trade_id := 1, sell_price := 550, quantity := 6,
                sell_date := 10, fee := 0, notes := none, batch_id := none }] }

def ledgerC : List Trade := [lotC]

/-- The scenario C attempt: a further sale of 5. -/
def sdC : SellData :=
  { sell_price := 560, quantity := 5, sell_date := 20, fee := 0, notes := none }

/-- Scenario D lots: quantities 3 and 7, costs 500 and 520. -/
def lotD1 : Trade :=
  { id := 1, buy_price := 500, quantity := 3, buy_date := 0, notes := none, sells := [] }

def lotD2 : Trade :=
  { id := 2, buy_price := 520, quantity := 7, buy_date := 1, notes := none, sells := [] }

def ledgerD : List Trade := [lotD1, lotD2]

/-- Scenario D batch sale: unit price 600, total fee 10. -/
def bdD : BatchSellData :=
  { sell_price := 600, sell_date := 50, fee := 10, notes := none }

def gidD : Nat → Nat := fun n => n + 100

/-- Scenario D ledger after the batch sell. -/
def ledgerD2 : List Trade := handleBatchSell ledgerD [1, 2] "bD" gidD bdD

/-- A fully sold lot and an open lot, both selected for a batch sell: the
reachable stale-selection state that breaks the fee-sum property. -/
def lotE1 : Trade :=
  { id := 1, buy_price := 500, quantity := 1, buy_date := 0, notes := none,
    sells := [{ id := 9, trade_id := 1, sell_price := 550, quantity := 1,
                sell_date := 5, fee := 0, notes := none, batch_id := none }] }

def lotE2 : Trade :=
  { id := 2, buy_price := 500, quantity := 1, buy_date := 0, notes := none, sells := [] }

def ledgerE : List Trade := [lotE1, lotE2]

def ledgerE2 : List Trade := handleBatchSell ledgerE [1, 2] "bE" gidD bdD

/-- A lot holding a batched sale of 4 against quantity 10 (as after editing the
quantity upward once the batch sell happened): remaining 6, above tolerance. -/
def lotB : Trade :=
  { id := 3, buy_price := 480, quantity := 10, buy_date := 7, notes := none,
    sells := [{ id := 31, trade_id := 3, sell_price := 550, quantity := 4,
                sell_date := 9, fee := 1, notes := none, batch_id := some "b1" }] }

def ledgerB : List Trade := [lotB]

/-- Create a 10g lot. -/
def tdC2 : TradeData := { buy_price := 500, quantity := 10, buy_date := 0, notes := none }

/-- Edit replacing the quantity by 5. -/
def tdC2small : TradeData := { buy_price := 500, quantity := 5, buy_date := 0, notes := none }

/-- Sell the full 10g. -/
def sdC2 : SellData := { sell_price := 550, quantity := 10, sell_date := 3, fee := 2, notes := none }

/-- Valid sequence ending in an edit-lot that shrinks the quantity below the
already sold total. -/
def opsC2 : List Op :=
  [Op.createTrade 1 tdC2, Op.createSell 1 11 sdC2, Op.editTrade 1 tdC2small]

/-- A valid sequence exercising every operation kind except edit-lot. -/
def opsC2ok : List Op :=
  [Op.createTrade 1 tdC2, Op.createSell 1 11 sdC2, Op.deleteSell 1 11,
   Op.batchSell [1] "w1" (fun n => n + 70) bdD, Op.deleteBatch "w1"]

/-- The scenario D batch view. -/
def batchD : Batch :=
  { id := "bD", trades := ledgerD2, batchDate := 50, sellPrice := 600,
    totalProfit := 850, totalFee := 10, totalQuantity := 10, buyPrice := 514 }

/-- The batch view built over ledgerB. -/
def batchB : Batch :=
  { id := "b1", trades := ledgerB, batchDate := 9, sellPrice := 550,
    totalProfit := 279, totalFee := 1, totalQuantity := 10, buyPrice := 480 }

/-- The display item rendered for batchB. -/
def itemB : DisplayItem :=
  { itemKey := "batch-b1", isFullySold := true, timestamp := 9, data := ItemData.batch batchB }

example : remainingWeight lotA = 10 := by with_unfolding_all decide

example : decide (remainingWeight lotA < fullySoldEps) = false := by
  with_unfolding_all decide

/-! ### Bridge lemmas -/

theorem foldl_add_map_sum {α : Type} (f : α → ℚ) (l : List α) :
    ∀ a : ℚ, l.foldl (fun acc x => acc + f x) a = a + (l.map f).sum := by
  induction l with
  | nil => intro a; simp
  | cons x xs ih =>
    intro a
    simp only [List.foldl_cons, List.map_cons, List.sum_cons, ih, add_assoc]

theorem sumQuantities_eq (l : List Sell) : sumQuantities l = (l.map Sell.quantity).sum := by
  simpa [sumQuantities] using foldl_add_map_sum Sell.quantity l 0

theorem soldWeight_eq (t : Trade) : soldWeight t = (t.sells.map Sell.quantity).sum :=
  sumQuantities_eq t.sells

/-! ### C9 -/

/-- C9: a persisted payload that fails to parse is discarded and the ledger
starts empty (a consistent state the user can keep working from); a missing
payload behaves the same way. -/
theorem C9_malformed_payload_discarded :
    loadTrades LoadPayload.malformed = [] ∧ loadTrades LoadPayload.absent = [] ∧
      Inv (loadTrades LoadPayload.malformed) := by
  refine ⟨rfl, rfl, ?_⟩
  intro t ht
  simp [loadTrades] at ht

/-! ### C1 -/

/-- C1 counterexample: the only lot of ledgerB holds a sale of batch b1 and a
remaining balance above tolerance, but deleting batch b1 leaves an empty
ledger — the member lot does not survive, contradicting the claim. -/
theorem C1_counterexample :
    (∃ t ∈ ledgerB, (t.sells.any fun s => s.batch_id == some "b1") = true ∧
        fullySoldEps < remainingWeight t) ∧
      handleDeleteBatch ledgerB "b1" = [] := by
  with_unfolding_all decide

/-- C1 (amended): batch-wide deletion by batchId removes the member lots
themselves, wholesale: a trade survives handleDeleteBatch exactly when none of
its sales carries the batch id, and survivors keep all their sales. -/
theorem C1_deleteBatch_removes_member_lots (trades : List Trade) (batchId : String)
    (t : Trade) :
    t ∈ handleDeleteBatch trades batchId ↔
      t ∈ trades ∧ ∀ s ∈ t.sells, s.batch_id ≠ some batchId := by
  simp [handleDeleteBatch, List.mem_filter]

set_option maxRecDepth 4000 in
/-- C1 witness: a lot with no sale of batch b1 survives deleting batch b1. -/
theorem C1_witness : lotC ∈ handleDeleteBatch ledgerC "b1" :=
  (C1_deleteBatch_removes_member_lots ledgerC "b1" lotC).mpr
    ⟨by with_unfolding_all decide, by with_unfolding_all decide⟩

/-! ### C7 -/

theorem stats_sell_foldl (t : Trade) (l : List Sell) :
    ∀ a : Stats,
      l.foldl
        (fun a s =>
          { a with totalProfit := a.totalProfit + ((s.sell_price - t.buy_price) * s.quantity - s.fee) })
        a
      = { totalProfit := a.totalProfit + (l.map (saleProfit t)).sum,
          activeWeight := a.activeWeight } := by
  induction l with
  | nil =>
    intro a
    simp only [List.foldl_nil, List.map_nil, List.sum_nil, add_zero]
  | cons s l ih =>
    intro a
    simp only [List.foldl_cons, List.map_cons, List.sum_cons, ih, saleProfit, add_assoc]

theorem stats_trade_foldl (l : List Trade) :
    ∀ a : Stats,
      l.foldl
        (fun acc t =>
          let soldW := sumQuantities t.sells
          let acc1 : Stats := { acc with activeWeight := acc.activeWeight + (t.quantity - soldW) }
          t.sells.foldl
            (fun a s =>
              { a with totalProfit := a.totalProfit + ((s.sell_price - t.buy_price) * s.quantity - s.fee) })
            acc1)
        a
      = { totalProfit := a.totalProfit + (l.map fun t => (t.sells.map (saleProfit t)).sum).sum,
          activeWeight := a.activeWeight + (l.map remainingWeight).sum } := by
  induction l with
  | nil =>
    intro a
    simp only [List.foldl_nil, List.map_nil, List.sum_nil, add_zero]
  | cons t l ih =>
    intro a
    simp only [List.foldl_cons]
    rw [stats_sell_foldl, ih]
    simp only [List.map_cons, List.sum_cons, remainingWeight, soldWeight]
    refine congrArg₂ Stats.mk ?_ ?_ <;> ring

/-- C7: the stats useMemo returns the portfolio totals: totalProfit is the sum
of saleProfit over every sale of every lot (the single profit formula), and
activeWeight the sum of remainingWeight over all lots. -/
theorem C7_portfolio_stats (trades : List Trade) :
    (stats trades).totalProfit = (trades.map fun t => (t.sells.map (saleProfit t)).sum).sum ∧
      (stats trades).activeWeight = (trades.map remainingWeight).sum := by
  unfold stats
  rw [stats_trade_foldl]
  constructor <;> simp

/-! ### C3 -/

/-- C3: a proposed single sale is rejected with the overdraft alert exactly
when its quantity exceeds the lot's quantity minus the other sales' total plus
the 1e-5 tolerance (edits exclude the edited sale from that total); on
rejection the ledger is unchanged. -/
theorem C3_overdraft_iff (trades : List Trade) (sellingTradeId : Option Nat)
    (editingSell : Option (Nat × Nat)) (newId : Nat) (sd : SellData) (tradeId : Nat)
    (trade : Trade)
    (hid : sellingTradeId.orElse (fun _ => editingSell.map Prod.snd) = some tradeId)
    (hfind : trades.find? (fun t => t.id == tradeId) = some trade) :
    ((handleSellSubmitSingle trades sellingTradeId editingSell newId sd).2 = SellOutcome.overdraft
      ↔ trade.quantity - otherSoldWeight trade (editingSell.map Prod.fst) + sellEps < sd.quantity)
    ∧ ((handleSellSubmitSingle trades sellingTradeId editingSell newId sd).2 = SellOutcome.overdraft
      → (handleSellSubmitSingle trades sellingTradeId editingSell newId sd).1 = trades) := by
  unfold handleSellSubmitSingle
  rw [hid]
  simp only [hfind]
  cases editingSell with
  | none => split_ifs with h <;> simp_all
  | some e => split_ifs with h <;> simp_all

set_option maxRecDepth 4000 in
/-- C3 at scenario C: attempting to sell 5 from a 10g lot with 6 already sold
is rejected as overdraft and the ledger is unchanged. -/
theorem C3_witness :
    (handleSellSubmitSingle ledgerC (some 1) none 99 sdC).2 = SellOutcome.overdraft ∧
      (handleSellSubmitSingle ledgerC (some 1) none 99 sdC).1 = ledgerC := by
  have h := C3_overdraft_iff ledgerC (some 1) none 99 sdC 1 lotC (by rfl)
    (by with_unfolding_all decide)
  have hov : (handleSellSubmitSingle ledgerC (some 1) none 99 sdC).2 = SellOutcome.overdraft :=
    h.1.mpr (by with_unfolding_all decide)
  exact ⟨hov, h.2 hov⟩

/-! ### C4 -/

/-- A selected trade with strictly positive remaining balance gets the new
batch sale prepended. -/
theorem batchSellUpdate_pos (sel : List Nat) (batchId : String) (genId : Nat → Nat)
    (bd : BatchSellData) (t : Trade) (h1 : sel.contains t.id = true)
    (h2 : 0 < remainingWeight t) :
    batchSellUpdate sel batchId genId bd t =
      { t with sells :=
          { id := genId t.id, trade_id := t.id, sell_price := bd.sell_price,
            quantity := remainingWeight t, sell_date := bd.sell_date,
            fee := bd.fee / (sel.length : ℚ), notes := bd.notes,
            batch_id := some batchId } :: t.sells } := by
  have h2' : ¬ t.quantity - sumQuantities t.sells ≤ 0 := by
    rw [not_le]
    exact h2
  unfold batchSellUpdate
  rw [h1]
  simp only [if_true, if_neg h2']
  rfl

/-- An unselected or fully sold trade is unchanged by the batch update. -/
theorem batchSellUpdate_skip (sel : List Nat) (batchId : String) (genId : Nat → Nat)
    (bd : BatchSellData) (t : Trade)
    (h : sel.contains t.id = false ∨ remainingWeight t ≤ 0) :
    batchSellUpdate sel batchId genId bd t = t := by
  unfold batchSellUpdate
  by_cases hc : sel.contains t.id = true
  · have h' : t.quantity - sumQuantities t.sells ≤ 0 := by
      rcases h with h | h
      · rw [h] at hc
        exact absurd hc (by simp)
      · exact h
    rw [hc, if_pos rfl]
    dsimp only
    rw [if_pos h']
  · rw [eq_false_of_ne_true hc]
    simp

/-- C4: a batch sell updates each trade independently. A selected trade with
strictly positive remaining balance gets exactly one new sale — quantity equal
to its whole remaining balance, the shared price, date and notes, the even fee
split over the selected ids, and the fresh batch id — prepended to its sells,
all other fields untouched; a selected but fully sold trade raises no error
and is unchanged, and an unselected trade is unchanged. -/
theorem C4_batchSell_spec (trades : List Trade) (sel : List Nat) (batchId : String)
    (genId : Nat → Nat) (bd : BatchSellData) (t : Trade)
    (hfresh : ∀ s ∈ t.sells, s.batch_id ≠ some batchId) :
    handleBatchSell trades sel batchId genId bd
        = trades.map (batchSellUpdate sel batchId genId bd)
    ∧ (sel.contains t.id = true → 0 < remainingWeight t →
        batchSellUpdate sel batchId genId bd t =
          { t with sells :=
              { id := genId t.id, trade_id := t.id, sell_price := bd.sell_price,
                quantity := remainingWeight t, sell_date := bd.sell_date,
                fee := bd.fee / (sel.length : ℚ), notes := bd.notes,
                batch_id := some batchId } :: t.sells }
        ∧ ((batchSellUpdate sel batchId genId bd t).sells.filter
            (fun s => s.batch_id == some batchId)).length = 1)
    ∧ ((sel.contains t.id = false ∨ remainingWeight t ≤ 0) →
        batchSellUpdate sel batchId genId bd t = t) := by
  have hnil : t.sells.filter (fun s => s.batch_id == some batchId) = [] := by
    rw [List.filter_eq_nil_iff]
    intro s hs
    simpa using hfresh s hs
  refine ⟨rfl, ?_, batchSellUpdate_skip sel batchId genId bd t⟩
  intro h1 h2
  have hupd := batchSellUpdate_pos sel batchId genId bd t h1 h2
  refine ⟨hupd, ?_⟩
  rw [hupd]
  simp [List.filter_cons, hnil]

set_option maxRecDepth 4000 in
/-- C4 at scenario D, lot 1: the batch sell prepends exactly one bD sale of
quantity 3 with fee 5 and leaves the other fields alone. -/
theorem C4_witness :
    batchSellUpdate [1, 2] "bD" gidD bdD lotD1 =
      { lotD1 with sells :=
          [{ id := gidD 1, trade_id := 1, sell_price := 600, quantity := 3,
             sell_date := 50, fee := 5, notes := none, batch_id := some "bD" }] }
    ∧ ((batchSellUpdate [1, 2] "bD" gidD bdD lotD1).sells.filter
        (fun s => s.batch_id == some "bD")).length = 1 := by
  have h := (C4_batchSell_spec ledgerD [1, 2] "bD" gidD bdD lotD1
      (by with_unfolding_all decide)).2.1
      (by with_unfolding_all decide) (by with_unfolding_all decide)
  refine ⟨?_, h.2⟩
  rw [h.1]
  with_unfolding_all decide

/-! ### C5 -/

/-- C5 counterexample: batch selling the two selected lots of ledgerE (lot 1
already fully sold, lot 2 open) with total fee 10 creates sales whose fees sum
to 5, not 10, refuting the claimed fee-sum property. -/
theorem C5_counterexample :
    batchFees ledgerE2 "bE" = 5 ∧ bdD.fee = 10 ∧ (5 : ℚ) ≠ 10 := by
  with_unfolding_all decide

theorem sum_map_ite_count {α : Type} (p : α → Bool) (c : ℚ) (l : List α) :
    (l.map fun x => if p x then c else 0).sum = (l.countP p : ℚ) * c := by
  induction l with
  | nil => simp
  | cons x xs ih =>
    simp only [List.map_cons, List.sum_cons, ih, List.countP_cons]
    by_cases h : p x = true
    · simp only [h, if_true]
      push_cast
      ring
    · simp only [h, if_false]
      simp only [Bool.not_eq_true] at h
      simp [h]

theorem countP_contains_eq_length (trades : List Trade) (sel : List Nat)
    (hnodupT : (trades.map Trade.id).Nodup) (hnodupS : sel.Nodup)
    (hcover : ∀ i ∈ sel, ∃ t ∈ trades, t.id = i) :
    trades.countP (fun t => sel.contains t.id) = sel.length := by
  rw [List.countP_eq_length_filter]
  set g := trades.filter (fun t => sel.contains t.id) with hg
  have hsub : List.Sublist (g.map Trade.id) (trades.map Trade.id) :=
    (List.filter_sublist trades).map Trade.id
  have hnd : (g.map Trade.id).Nodup := hnodupT.sublist hsub
  have h1 : g.map Trade.id ⊆ sel := by
    intro i hi
    rcases List.mem_map.mp hi with ⟨t, ht, rfl⟩
    have := (List.mem_filter.mp ht).2
    exact List.elem_iff.mp this
  have h2 : sel ⊆ g.map Trade.id := by
    intro i hi
    rcases hcover i hi with ⟨t, ht, rfl⟩
    refine List.mem_map.mpr ⟨t, ?_, rfl⟩
    exact List.mem_filter.mpr ⟨ht, List.elem_iff.mpr hi⟩
  have hle1 : (g.map Trade.id).length ≤ sel.length := (hnd.subperm h1).length_le
  have hle2 : sel.length ≤ (g.map Trade.id).length := (hnodupS.subperm h2).length_le
  have : (g.map Trade.id).length = sel.length := le_antisymm hle1 hle2
  simpa using this

/-- The batch fee contributed by one trade after the per-trade batch update. -/
theorem batchFees_update (sel : List Nat) (batchId : String) (genId : Nat → Nat)
    (bd : BatchSellData) (t : Trade)
    (hfresh : ∀ s ∈ t.sells, s.batch_id ≠ some batchId) :
    (((batchSellUpdate sel batchId genId bd t).sells.filter
        (fun s => s.batch_id == some batchId)).map Sell.fee).sum
      = if sel.contains t.id && decide (0 < remainingWeight t) then
          bd.fee / (sel.length : ℚ) else 0 := by
  have hnil : t.sells.filter (fun s => s.batch_id == some batchId) = [] := by
    rw [List.filter_eq_nil_iff]
    intro s hs
    simpa using hfresh s hs
  by_cases hc : sel.contains t.id = true
  · have hmem : t.id ∈ sel := List.elem_iff.mp hc
    by_cases hr : 0 < remainingWeight t
    · rw [batchSellUpdate_pos sel batchId genId bd t hc hr]
      simp [List.filter_cons, hnil, hmem, hr]
    · rw [batchSellUpdate_skip sel batchId genId bd t (Or.inr (not_lt.mp hr)), hnil]
      simp [hr]
  · have hmem : t.id ∉ sel := fun hm => hc (List.elem_iff.mpr hm)
    rw [batchSellUpdate_skip sel batchId genId bd t (Or.inl (eq_false_of_ne_true hc)), hnil]
    simp [hmem]

/-- C5 (amended): every created sale of a batch sell carries fee
totalFee / count(selected ids); the created fees sum to totalFee exactly when
every selected lot still has strictly positive remaining quantity (the code
divides by the number of selected lots but silently skips fully sold ones, so
with a stale selection the created fees sum to less than the total fee). -/
theorem C5_fee_split (trades : List Trade) (sel : List Nat) (batchId : String)
    (genId : Nat → Nat) (bd : BatchSellData)
    (hfresh : ∀ t ∈ trades, ∀ s ∈ t.sells, s.batch_id ≠ some batchId)
    (hnodupT : (trades.map Trade.id).Nodup) (hnodupS : sel.Nodup)
    (hcover : ∀ i ∈ sel, ∃ t ∈ trades, t.id = i)
    (hpos : ∀ t ∈ trades, sel.contains t.id = true → 0 < remainingWeight t)
    (hne : sel ≠ []) :
    (∀ t ∈ handleBatchSell trades sel batchId genId bd, ∀ s ∈ t.sells,
        s.batch_id = some batchId → s.fee = bd.fee / (sel.length : ℚ))
    ∧ batchFees (handleBatchSell trades sel batchId genId bd) batchId = bd.fee := by
  constructor
  · intro t' ht' s hs hsb
    rcases List.mem_map.mp ht' with ⟨t, ht, rfl⟩
    have hfr := hfresh t ht
    by_cases hc : sel.contains t.id
    · by_cases hr : 0 < remainingWeight t
      · rw [batchSellUpdate_pos sel batchId genId bd t hc hr] at hs
        rcases List.mem_cons.mp hs with rfl | hs'
        · rfl
        · exact absurd hsb (hfr s hs')
      · rw [batchSellUpdate_skip sel batchId genId bd t (Or.inr (not_lt.mp hr))] at hs
        exact absurd hsb (hfr s hs)
    · rw [batchSellUpdate_skip sel batchId genId bd t (Or.inl (eq_false_of_ne_true hc))] at hs
      exact absurd hsb (hfr s hs)
  · unfold batchFees handleBatchSell
    rw [List.map_map]
    have hpt : ∀ t ∈ trades,
        ((((batchSellUpdate sel batchId genId bd t).sells.filter
            (fun s => s.batch_id == some batchId)).map Sell.fee).sum)
          = if sel.contains t.id then bd.fee / (sel.length : ℚ) else 0 := by
      intro t ht
      rw [batchFees_update sel batchId genId bd t (hfresh t ht)]
      by_cases hc : sel.contains t.id = true
      · have hmem : t.id ∈ sel := List.elem_iff.mp hc
        simp [hmem, hpos t ht hc]
      · have hmem : t.id ∉ sel := fun hm => hc (List.elem_iff.mpr hm)
        simp [hmem]
    have hmap : (trades.map fun t =>
        (((batchSellUpdate sel batchId genId bd t).sells.filter
            (fun s => s.batch_id == some batchId)).map Sell.fee).sum)
        = trades.map fun t => if sel.contains t.id then bd.fee / (sel.length : ℚ) else 0 :=
      List.map_eq_map_iff.mpr hpt
    rw [show ((fun t => ((Trade.sells t).filter (fun s => s.batch_id == some batchId)).map Sell.fee |>.sum) ∘ batchSellUpdate sel batchId genId bd)
      = fun t => (((batchSellUpdate sel batchId genId bd t).sells.filter
          (fun s => s.batch_id == some batchId)).map Sell.fee).sum from rfl]
    rw [hmap, sum_map_ite_count (fun t => sel.contains t.id) (bd.fee / (sel.length : ℚ)) trades]
    rw [countP_contains_eq_length trades sel hnodupT hnodupS hcover]
    have hlen : ((sel.length : ℚ)) ≠ 0 := by
      simpa using List.length_pos.mpr hne |>.ne'
    field_simp

set_option maxRecDepth 4000 in
/-- C5 at scenario D: both selected lots are open, so each created sale has
fee 5 and the created fees sum to the total fee 10. -/
theorem C5_witness : batchFees ledgerD2 "bD" = 10 := by
  have h := (C5_fee_split ledgerD [1, 2] "bD" gidD bdD
      (by with_unfolding_all decide) (by with_unfolding_all decide)
      (by with_unfolding_all decide) (by with_unfolding_all decide)
      (by with_unfolding_all decide) (by with_unfolding_all decide)).2
  have hfee : bdD.fee = (10 : ℚ) := rfl
  rw [hfee] at h
  exact h

/-! ### C6 -/

theorem finalize_sell_foldl (bId : String) (t : Trade) (l : List Sell) :
    ∀ a : ℚ × ℚ × ℚ,
      l.foldl
        (fun a s =>
          if s.batch_id == some bId then
            (a.1, a.2.1 + ((s.sell_price - t.buy_price) * s.quantity - s.fee), a.2.2 + s.fee)
          else a)
        a
      = (a.1,
         a.2.1 + ((l.filter fun s => s.batch_id == some bId).map (saleProfit t)).sum,
         a.2.2 + ((l.filter fun s => s.batch_id == some bId).map Sell.fee).sum) := by
  induction l with
  | nil => intro a; simp
  | cons s l ih =>
    intro a
    simp only [List.foldl_cons, List.filter_cons]
    by_cases h : (s.batch_id == some bId) = true
    · rw [if_pos h, if_pos h, ih]
      simp [saleProfit, add_assoc]
    · rw [if_neg h, if_neg h, ih]

theorem finalize_trade_foldl (bId : String) (l : List Trade) :
    ∀ a : ℚ × ℚ × ℚ,
      l.foldl
        (fun (acc : ℚ × ℚ × ℚ) t =>
          let acc1 := (acc.1 + t.buy_price * t.quantity, acc.2.1, acc.2.2)
          t.sells.foldl
            (fun a s =>
              if s.batch_id == some bId then
                (a.1, a.2.1 + ((s.sell_price - t.buy_price) * s.quantity - s.fee), a.2.2 + s.fee)
              else a)
            acc1)
        a
      = (a.1 + (l.map fun t => t.buy_price * t.quantity).sum,
         a.2.1 + (l.map fun t =>
            ((t.sells.filter fun s => s.batch_id == some bId).map (saleProfit t)).sum).sum,
         a.2.2 + (l.map fun t =>
            ((t.sells.filter fun s => s.batch_id == some bId).map Sell.fee).sum).sum) := by
  induction l with
  | nil => intro a; simp
  | cons t l ih =>
    intro a
    simp only [List.foldl_cons]
    rw [finalize_sell_foldl bId t, ih]
    simp only [List.map_cons, List.sum_cons]
    refine congrArg₂ Prod.mk ?_ (congrArg₂ Prod.mk ?_ ?_) <;> ring

/-- Invariant carried by the accumulated batches of the first pass. -/
theorem classifyStep_invariant (acc : List Batch × List Trade) (t : Trade)
    (h : ∀ b ∈ acc.1, b.totalQuantity = (b.trades.map Trade.quantity).sum ∧
        b.totalProfit = 0 ∧ b.totalFee = 0) :
    ∀ b ∈ (classifyStep acc t).1,
      b.totalQuantity = (b.trades.map Trade.quantity).sum ∧
        b.totalProfit = 0 ∧ b.totalFee = 0 := by
  unfold classifyStep
  cases hfind : t.sells.find? (fun s => s.batch_id.isSome) with
  | none => exact h
  | some bs =>
    dsimp only
    cases hbid : bs.batch_id with
    | none => exact h
    | some bId =>
      dsimp only
      by_cases hany : (acc.1.any fun b => b.id == bId) = true
      · rw [if_pos hany]
        intro b hb
        rcases List.mem_map.mp hb with ⟨b0, hb0, rfl⟩
        by_cases heq : (b0.id == bId) = true
        · rw [if_pos heq]
          have h0 := h b0 hb0
          refine ⟨?_, h0.2.1, h0.2.2⟩
          simp [h0.1]
        · rw [if_neg heq]
          exact h b0 hb0
      · rw [if_neg hany]
        intro b hb
        rcases List.mem_append.mp hb with hb | hb
        · exact h b hb
        · rcases List.mem_singleton.mp hb with rfl
          refine ⟨?_, rfl, rfl⟩
          simp

theorem classify_invariant (trades : List Trade) :
    ∀ b ∈ (classifyTrades trades).1,
      b.totalQuantity = (b.trades.map Trade.quantity).sum ∧
        b.totalProfit = 0 ∧ b.totalFee = 0 := by
  unfold classifyTrades
  have main : ∀ (l : List Trade) (acc : List Batch × List Trade),
      (∀ b ∈ acc.1, b.totalQuantity = (b.trades.map Trade.quantity).sum ∧
          b.totalProfit = 0 ∧ b.totalFee = 0) →
      ∀ b ∈ (l.foldl classifyStep acc).1,
        b.totalQuantity = (b.trades.map Trade.quantity).sum ∧
          b.totalProfit = 0 ∧ b.totalFee = 0 := by
    intro l
    induction l with
    | nil => intro acc hacc; exact hacc
    | cons t l ih =>
      intro acc hacc
      exact ih (classifyStep acc t) (classifyStep_invariant acc t hacc)
  exact main trades ([], []) (by simp)

/-- The second displayItems pass in closed form, for batches entering it with
zero running totals. -/
theorem finalizeBatch_spec (b : Batch) (h0p : b.totalProfit = 0) (h0f : b.totalFee = 0) :
    (finalizeBatch b).id = b.id ∧ (finalizeBatch b).trades = b.trades ∧
    (finalizeBatch b).batchDate = b.batchDate ∧
    (finalizeBatch b).totalQuantity = b.totalQuantity ∧
    (finalizeBatch b).totalProfit = (b.trades.map fun t =>
        ((t.sells.filter fun s => s.batch_id == some b.id).map (saleProfit t)).sum).sum ∧
    (finalizeBatch b).totalFee = (b.trades.map fun t =>
        ((t.sells.filter fun s => s.batch_id == some b.id).map Sell.fee).sum).sum ∧
    (finalizeBatch b).buyPrice = (b.trades.map fun t => t.buy_price * t.quantity).sum /
        b.totalQuantity := by
  unfold finalizeBatch
  rw [finalize_trade_foldl b.id b.trades (0, b.totalProfit, b.totalFee)]
  simp [h0p, h0f]

/-- C6: every batch view of the display list reports the sum of the member
lots' full original quantities as totalQuantity, the quantity-weighted buy
price Σ(cost times quantity) / Σ(quantity), and profit and fee summed over
exactly the member sales whose batch id matches. -/
theorem C6_batch_view (trades : List Trade) (b : Batch) (hb : b ∈ displayBatches trades) :
    b.totalQuantity = (b.trades.map Trade.quantity).sum ∧
    b.buyPrice = (b.trades.map fun t => t.buy_price * t.quantity).sum /
        (b.trades.map Trade.quantity).sum ∧
    b.totalProfit = (b.trades.map fun t =>
        ((t.sells.filter fun s => s.batch_id == some b.id).map (saleProfit t)).sum).sum ∧
    b.totalFee = (b.trades.map fun t =>
        ((t.sells.filter fun s => s.batch_id == some b.id).map Sell.fee).sum).sum := by
  rcases List.mem_map.mp hb with ⟨b0, hb0, rfl⟩
  have hinv := classify_invariant trades b0 hb0
  obtain ⟨hid, htr, hdate, hq, hp, hf, hbp⟩ := finalizeBatch_spec b0 hinv.2.1 hinv.2.2
  refine ⟨?_, ?_, ?_, ?_⟩
  · rw [hq, htr, hinv.1]
  · rw [hbp, htr, hinv.1]
  · rw [hp, htr, hid]
  · rw [hf, htr, hid]

set_option maxRecDepth 8000 in
/-- C6 at scenario D: the bD batch view satisfies the aggregate formulas
(concretely, totalQuantity 10 and weighted price 514). -/
theorem C6_witness :
    batchD.totalQuantity = (batchD.trades.map Trade.quantity).sum ∧
      batchD.buyPrice = (batchD.trades.map fun t => t.buy_price * t.quantity).sum /
        (batchD.trades.map Trade.quantity).sum := by
  have h := C6_batch_view ledgerD2 batchD (by with_unfolding_all decide)
  exact ⟨h.1, h.2.1⟩

/-! ### C8 and C10 -/

theorem itemLE_total (a b : DisplayItem) : itemLE a b = true ∨ itemLE b a = true := by
  unfold itemLE
  cases ha : a.isFullySold <;> cases hb : b.isFullySold
  case false.false =>
    rcases le_total a.timestamp b.timestamp with h | h
    · right; simp [h]
    · left; simp [h]
  case false.true => left; simp
  case true.false => right; simp
  case true.true =>
    rcases le_total a.timestamp b.timestamp with h | h
    · right; simp [h]
    · left; simp [h]

theorem itemLE_trans (a b c : DisplayItem) (hab : itemLE a b = true)
    (hbc : itemLE b c = true) : itemLE a c = true := by
  unfold itemLE at *
  cases ha : a.isFullySold <;> cases hb : b.isFullySold <;> cases hc : c.isFullySold <;>
    simp_all <;> omega

instance : IsTotal DisplayItem itemRel := ⟨fun a b => itemLE_total a b⟩

instance : IsTrans DisplayItem itemRel := ⟨fun a b c => itemLE_trans a b c⟩

/-- Anything in the display list comes from one of the two map halves. -/
theorem displayItems_mem (trades : List Trade) (it : DisplayItem)
    (hmem : it ∈ displayItems trades) :
    (∃ t ∈ standaloneOf trades, it =
        { itemKey := "trade-" ++ toString t.id, data := ItemData.trade t,
          timestamp := t.buy_date,
          isFullySold := decide (remainingWeight t < fullySoldEps) })
    ∨ (∃ b ∈ displayBatches trades, it =
        { itemKey := "batch-" ++ b.id, data := ItemData.batch b,
          timestamp := b.batchDate, isFullySold := true }) := by
  unfold displayItems at hmem
  rw [List.mem_insertionSort] at hmem
  unfold displayItemsRaw at hmem
  rcases List.mem_append.mp hmem with h | h
  · left
    rcases List.mem_map.mp h with ⟨t, ht, rfl⟩
    exact ⟨t, ht, rfl⟩
  · right
    rcases List.mem_map.mp h with ⟨b, hb, rfl⟩
    exact ⟨b, hb, rfl⟩

/-- C10: every batch view entering the display list is classified fully sold,
unconditionally — even when a member lot's remaining quantity is above the
zero tolerance — so a batch view can never appear in the open partition. -/
theorem C10_batch_items_always_closed (trades : List Trade) (it : DisplayItem)
    (hmem : it ∈ displayItems trades) (b : Batch) (hdata : it.data = ItemData.batch b) :
    it.isFullySold = true := by
  rcases displayItems_mem trades it hmem with ⟨t, _, rfl⟩ | ⟨b0, _, rfl⟩
  · exact absurd hdata (by simp)
  · rfl

set_option maxRecDepth 8000 in
/-- C10 at ledgerB: the member lot has remaining 6, far above the tolerance,
yet the batch item is marked fully sold. -/
theorem C10_witness :
    fullySoldEps < remainingWeight lotB ∧ itemB.isFullySold = true := by
  refine ⟨by with_unfolding_all decide, ?_⟩
  exact C10_batch_items_always_closed ledgerB itemB (by with_unfolding_all decide) batchB rfl

/-- C8: the display list is sorted so that no closed item ever precedes an
open one (every open item comes before every closed item) and, within a
partition, timestamps descend; standalone items are stamped with the lot's
buy date and flagged closed exactly when remaining is below the 1e-4
tolerance, batch items are stamped with the batch's sell date. -/
theorem C8_display_order (trades : List Trade) :
    List.Pairwise
      (fun a b : DisplayItem =>
        (a.isFullySold = true → b.isFullySold = true) ∧
        (a.isFullySold = b.isFullySold → b.timestamp ≤ a.timestamp))
      (displayItems trades)
    ∧ ∀ it ∈ displayItems trades,
        (∀ t, it.data = ItemData.trade t →
          it.timestamp = t.buy_date ∧
            it.isFullySold = decide (remainingWeight t < fullySoldEps))
        ∧ (∀ b, it.data = ItemData.batch b →
            it.timestamp = b.batchDate ∧ it.isFullySold = true) := by
  constructor
  · have hs : List.Sorted itemRel (displayItems trades) :=
      List.sorted_insertionSort itemRel (displayItemsRaw trades)
    refine List.Pairwise.imp ?_ hs
    intro a b hab
    have hab' : itemLE a b = true := hab
    unfold itemLE at hab'
    constructor
    · intro ha
      cases hbfs : b.isFullySold
      · rw [ha, hbfs] at hab'
        simp at hab'
      · rfl
    · intro heq
      rw [heq, bne_self_eq_false] at hab'
      simp only [Bool.false_eq_true, if_false] at hab'
      exact of_decide_eq_true hab'
  · intro it hmem
    rcases displayItems_mem trades it hmem with ⟨t, _, rfl⟩ | ⟨b0, _, rfl⟩
    · constructor
      · intro t' h'
        have ht' : t = t' := by
          simpa using h'
        subst ht'
        exact ⟨rfl, rfl⟩
      · intro b h'
        exact absurd h' (by simp)
    · constructor
      · intro t' h'
        exact absurd h' (by simp)
      · intro b h'
        have hb' : b0 = b := by
          simpa using h'
        subst hb'
        exact ⟨rfl, rfl⟩

/-- C8 witness: the ordering property at the concrete ledgerB display list. -/
theorem C8_witness :
    List.Pairwise
      (fun a b : DisplayItem =>
        (a.isFullySold = true → b.isFullySold = true) ∧
        (a.isFullySold = b.isFullySold → b.timestamp ≤ a.timestamp))
      (displayItems ledgerB) :=
  (C8_display_order ledgerB).1

/-! ### C2 -/

theorem sellEps_pos : (0 : ℚ) < sellEps := by norm_num [sellEps]

theorem sumQuantities_cons (s : Sell) (l : List Sell) :
    sumQuantities (s :: l) = s.quantity + sumQuantities l := by
  rw [sumQuantities_eq, sumQuantities_eq, List.map_cons, List.sum_cons]

theorem sumQuantities_filter_le (l : List Sell) (p : Sell → Bool)
    (hnn : ∀ s ∈ l, 0 ≤ s.quantity) :
    sumQuantities (l.filter p) ≤ sumQuantities l := by
  rw [sumQuantities_eq, sumQuantities_eq]
  refine List.Sublist.sum_le_sum ((List.filter_sublist l).map Sell.quantity) ?_
  intro q hq
  rcases List.mem_map.mp hq with ⟨s, hs, rfl⟩
  exact hnn s hs

/-- With unique trade ids, a trade of the ledger carrying the looked-up id is
the trade find? returns. -/
theorem mem_eq_of_find (trades : List Trade) (hnodup : (trades.map Trade.id).Nodup)
    (tid : Nat) (tr t : Trade) (hfind : trades.find? (fun x => x.id == tid) = some tr)
    (ht : t ∈ trades) (hid : t.id = tid) : t = tr := by
  have htr : tr.id = tid := by
    simpa using List.find?_some hfind
  exact List.inj_on_of_nodup_map hnodup ht (List.mem_of_find?_eq_some hfind)
    (by rw [hid, htr])

theorem map_ite_id_of_not_mem (e : Nat) (g : Sell → Sell) (l : List Sell)
    (h : e ∉ l.map Sell.id) :
    (l.map fun s => if s.id == e then g s else s) = l := by
  induction l with
  | nil => rfl
  | cons s l ih =>
    simp only [List.map_cons, List.mem_cons, not_or] at h
    rw [List.map_cons, if_neg (by simpa using fun hse : s.id = e => h.1 hse.symm),
      ih h.2]

theorem filter_ne_id_of_not_mem (e : Nat) (l : List Sell) (h : e ∉ l.map Sell.id) :
    (l.filter fun s => !(s.id == e)) = l := by
  rw [List.filter_eq_self]
  intro s hs
  simp only [Bool.not_eq_true', beq_eq_false_iff_ne]
  intro hse
  exact h (List.mem_map.mpr ⟨s, hs, hse⟩)

/-- Replacing the sale with a given id caps the sold total by the other sales
plus the replacement quantity, when sale ids are unique. -/
theorem sum_after_edit_le (e : Nat) (sd : SellData) (hq : 0 ≤ sd.quantity) :
    ∀ l : List Sell, (l.map Sell.id).Nodup →
      sumQuantities (l.map fun s => if s.id == e then applySellData sd s else s)
        ≤ sumQuantities (l.filter fun s => !(s.id == e)) + sd.quantity := by
  intro l
  induction l with
  | nil =>
    intro _
    simpa [sumQuantities] using hq
  | cons s l ih =>
    intro hnd
    rw [List.map_cons] at hnd
    obtain ⟨hs1, hs2⟩ := List.nodup_cons.mp hnd
    rw [List.map_cons, List.filter_cons]
    by_cases hse : (s.id == e) = true
    · have hide : s.id = e := by simpa using hse
      have he : e ∉ l.map Sell.id := by
        rw [← hide]
        exact hs1
      rw [if_pos hse, map_ite_id_of_not_mem e _ l he]
      have hp : (!(s.id == e)) = false := by simp [hse]
      rw [hp]
      simp only [Bool.false_eq_true, if_false]
      rw [filter_ne_id_of_not_mem e l he, sumQuantities_cons]
      have : (applySellData sd s).quantity = sd.quantity := rfl
      rw [this]
      linarith
    · have hp : (!(s.id == e)) = true := by simp [hse]
      rw [if_neg hse, hp]
      simp only [if_true]
      rw [sumQuantities_cons, sumQuantities_cons]
      have := ih hs2
      linarith

theorem otherSoldWeight_none (t : Trade) : otherSoldWeight t none = soldWeight t := by
  unfold otherSoldWeight otherSells soldWeight
  rw [List.filter_true]

theorem otherSoldWeight_some (t : Trade) (e : Nat) :
    otherSoldWeight t (some e) = sumQuantities (t.sells.filter fun s => !(s.id == e)) := rfl

/-- Updating the sells of the trades carrying one id preserves LedgerOK as
long as the new sells of that trade satisfy the per-trade conditions. -/
theorem ledgerOK_map_update (trades : List Trade) (tid : Nat) (f : Trade → List Sell)
    (hok : LedgerOK trades)
    (h : ∀ t ∈ trades, t.id = tid →
      (∀ s ∈ f t, 0 ≤ s.quantity) ∧ ((f t).map Sell.id).Nodup ∧
        sumQuantities (f t) ≤ t.quantity + sellEps) :
    LedgerOK (trades.map fun t => if t.id == tid then { t with sells := f t } else t) := by
  obtain ⟨hnd, hall⟩ := hok
  constructor
  · rw [List.map_map]
    have heq : ∀ t ∈ trades,
        (Trade.id ∘ fun t => if t.id == tid then { t with sells := f t } else t) t
          = Trade.id t := by
      intro t _
      by_cases hb : (t.id == tid) = true
      · simp [Function.comp, hb]
      · simp [Function.comp, hb]
    rw [List.map_eq_map_iff.mpr heq]
    exact hnd
  · intro t' ht'
    rcases List.mem_map.mp ht' with ⟨t, ht, rfl⟩
    by_cases hb : (t.id == tid) = true
    · rw [if_pos hb]
      exact h t ht (by simpa using hb)
    · rw [if_neg hb]
      exact hall t ht

theorem ledgerOK_createTrade (trades : List Trade) (newId : Nat) (td : TradeData)
    (hok : LedgerOK trades) (hq : 0 ≤ td.quantity)
    (hfresh : newId ∉ trades.map Trade.id) :
    LedgerOK (handleCreateTrade trades newId td) := by
  obtain ⟨hnd, hall⟩ := hok
  constructor
  · unfold handleCreateTrade
    rw [List.map_cons]
    exact List.nodup_cons.mpr ⟨hfresh, hnd⟩
  · intro t ht
    rcases List.mem_cons.mp ht with rfl | ht
    · refine ⟨by simp, by simp, ?_⟩
      have h0 : sumQuantities ([] : List Sell) = 0 := rfl
      have he := sellEps_pos
      show sumQuantities [] ≤ td.quantity + sellEps
      rw [h0]
      linarith
    · exact hall t ht

theorem ledgerOK_filter (trades : List Trade) (p : Trade → Bool) (hok : LedgerOK trades) :
    LedgerOK (trades.filter p) := by
  obtain ⟨hnd, hall⟩ := hok
  refine ⟨hnd.sublist ((List.filter_sublist trades).map Trade.id), ?_⟩
  intro t ht
  exact hall t (List.mem_of_mem_filter ht)

/-- Deleting some sells of one trade preserves LedgerOK. -/
theorem ledgerOK_deleteSells (trades : List Trade) (tid : Nat) (p : Sell → Bool)
    (hok : LedgerOK trades) :
    LedgerOK (trades.map fun t =>
      if t.id == tid then { t with sells := t.sells.filter p } else t) := by
  refine ledgerOK_map_update trades tid (fun t => t.sells.filter p) hok ?_
  intro t ht _
  obtain ⟨hnn, hndup, hsum⟩ := hok.2 t ht
  refine ⟨?_, ?_, ?_⟩
  · intro s hs
    exact hnn s (List.mem_of_mem_filter hs)
  · exact hndup.sublist ((List.filter_sublist t.sells).map Sell.id)
  · exact le_trans (sumQuantities_filter_le t.sells p hnn) hsum

theorem ledgerOK_sellSubmit (trades : List Trade) (sellingTradeId : Option Nat)
    (editingSell : Option (Nat × Nat)) (newId : Nat) (sd : SellData)
    (hok : LedgerOK trades) (hq : 0 ≤ sd.quantity)
    (hfresh : editingSell = none → ∀ t ∈ trades, newId ∉ t.sells.map Sell.id) :
    LedgerOK (handleSellSubmitSingle trades sellingTradeId editingSell newId sd).1 := by
  unfold handleSellSubmitSingle
  cases horelse : sellingTradeId.orElse (fun _ => editingSell.map Prod.snd) with
  | none => exact hok
  | some tradeId =>
    dsimp only
    cases hfind : trades.find? (fun t => t.id == tradeId) with
    | none => exact hok
    | some trade =>
      dsimp only
      by_cases hcond :
          trade.quantity - otherSoldWeight trade (editingSell.map Prod.fst) + sellEps
            < sd.quantity
      · rw [if_pos hcond]
        exact hok
      · rw [if_neg hcond]
        have hcond' :
            sd.quantity ≤ trade.quantity - otherSoldWeight trade (editingSell.map Prod.fst)
              + sellEps := not_lt.mp hcond
        have htrmem : trade ∈ trades := List.mem_of_find?_eq_some hfind
        cases editingSell with
        | none =>
          dsimp only
          refine ledgerOK_map_update trades tradeId
            (fun t =>
              { id := newId, trade_id := tradeId, sell_price := sd.sell_price,
                quantity := sd.quantity, sell_date := sd.sell_date, fee := sd.fee,
                notes := sd.notes, batch_id := none } :: t.sells) hok ?_
          intro t ht hid
          have hteq : t = trade := mem_eq_of_find trades hok.1 tradeId trade t hfind ht hid
          obtain ⟨hnn, hndup, _⟩ := hok.2 t ht
          refine ⟨?_, ?_, ?_⟩
          · intro s hs
            rcases List.mem_cons.mp hs with rfl | hs
            · exact hq
            · exact hnn s hs
          · rw [List.map_cons]
            exact List.nodup_cons.mpr ⟨hfresh rfl t ht, hndup⟩
          · rw [sumQuantities_cons]
            rw [Option.map_none'] at hcond'
            rw [otherSoldWeight_none] at hcond'
            have : sumQuantities t.sells = soldWeight trade := by
              rw [hteq]
              rfl
            rw [this]
            have hqt : t.quantity = trade.quantity := by rw [hteq]
            rw [hqt]
            show sd.quantity + soldWeight trade ≤ trade.quantity + sellEps
            linarith
        | some e =>
          dsimp only
          refine ledgerOK_map_update trades tradeId
            (fun t => t.sells.map fun s => if s.id == e.1 then applySellData sd s else s)
            hok ?_
          intro t ht hid
          have hteq : t = trade := mem_eq_of_find trades hok.1 tradeId trade t hfind ht hid
          obtain ⟨hnn, hndup, _⟩ := hok.2 t ht
          refine ⟨?_, ?_, ?_⟩
          · intro s' hs'
            rcases List.mem_map.mp hs' with ⟨s, hs, rfl⟩
            by_cases hse : (s.id == e.1) = true
            · rw [if_pos hse]
              exact hq
            · rw [if_neg hse]
              exact hnn s hs
          · rw [List.map_map]
            have heq : ∀ s ∈ t.sells,
                (Sell.id ∘ fun s => if s.id == e.1 then applySellData sd s else s) s
                  = Sell.id s := by
              intro s _
              by_cases hse : (s.id == e.1) = true
              · simp [Function.comp, hse, applySellData]
              · simp [Function.comp, hse]
            rw [List.map_eq_map_iff.mpr heq]
            exact hndup
          · have hbound := sum_after_edit_le e.1 sd hq t.sells hndup
            rw [Option.map_some'] at hcond'
            rw [otherSoldWeight_some] at hcond'
            have hfs : sumQuantities (trade.sells.filter fun s => !(s.id == e.1))
                = sumQuantities (t.sells.filter fun s => !(s.id == e.1)) := by
              rw [hteq]
            rw [hfs] at hcond'
            have hqt : t.quantity = trade.quantity := by rw [hteq]
            rw [hqt]
            linarith

theorem ledgerOK_batchSell (trades : List Trade) (sel : List Nat) (batchId : String)
    (genId : Nat → Nat) (bd : BatchSellData) (hok : LedgerOK trades)
    (hfresh : ∀ t ∈ trades, genId t.id ∉ t.sells.map Sell.id) :
    LedgerOK (handleBatchSell trades sel batchId genId bd) := by
  obtain ⟨hnd, hall⟩ := hok
  constructor
  · unfold handleBatchSell
    rw [List.map_map]
    have heq : ∀ t ∈ trades,
        (Trade.id ∘ batchSellUpdate sel batchId genId bd) t = Trade.id t := by
      intro t _
      by_cases hc : sel.contains t.id = true
      · by_cases hr : 0 < remainingWeight t
        · rw [Function.comp_apply, batchSellUpdate_pos sel batchId genId bd t hc hr]
        · rw [Function.comp_apply,
            batchSellUpdate_skip sel batchId genId bd t (Or.inr (not_lt.mp hr))]
      · rw [Function.comp_apply,
          batchSellUpdate_skip sel batchId genId bd t (Or.inl (eq_false_of_ne_true hc))]
    rw [List.map_eq_map_iff.mpr heq]
    exact hnd
  · intro t' ht'
    rcases List.mem_map.mp ht' with ⟨t, ht, rfl⟩
    obtain ⟨hnn, hndup, hsum⟩ := hall t ht
    by_cases hc : sel.contains t.id = true
    · by_cases hr : 0 < remainingWeight t
      · rw [batchSellUpdate_pos sel batchId genId bd t hc hr]
        refine ⟨?_, ?_, ?_⟩
        · intro s hs
          rcases List.mem_cons.mp hs with rfl | hs
          · show (0 : ℚ) ≤ remainingWeight t
            exact le_of_lt hr
          · exact hnn s hs
        · rw [List.map_cons]
          exact List.nodup_cons.mpr ⟨hfresh t ht, hndup⟩
        · show sumQuantities
            ({ id := genId t.id, trade_id := t.id, sell_price := bd.sell_price,
               quantity := remainingWeight t, sell_date := bd.sell_date,
               fee := bd.fee / (sel.length : ℚ), notes := bd.notes,
               batch_id := some batchId } :: t.sells) ≤ t.quantity + sellEps
          rw [sumQuantities_cons]
          show remainingWeight t + sumQuantities t.sells ≤ t.quantity + sellEps
          have hre : remainingWeight t = t.quantity - sumQuantities t.sells := rfl
          have hse := sellEps_pos
          rw [hre]
          linarith
      · rw [batchSellUpdate_skip sel batchId genId bd t (Or.inr (not_lt.mp hr))]
        exact ⟨hnn, hndup, hsum⟩
    · rw [batchSellUpdate_skip sel batchId genId bd t (Or.inl (eq_false_of_ne_true hc))]
      exact ⟨hnn, hndup, hsum⟩

theorem ledgerOK_applyOp (trades : List Trade) (op : Op) (hok : LedgerOK trades)
    (hv : validOp trades op = true) (hne : isEditTradeOp op = false) :
    LedgerOK (applyOp trades op) := by
  cases op with
  | createTrade newId td =>
    simp only [validOp, Bool.and_eq_true, decide_eq_true_eq, Bool.not_eq_true'] at hv
    refine ledgerOK_createTrade trades newId td hok hv.1 ?_
    intro hmem
    have h2 : (trades.map Trade.id).contains newId = true := List.elem_iff.mpr hmem
    rw [hv.2] at h2
    exact Bool.false_ne_true h2
  | editTrade editId td => simp [isEditTradeOp] at hne
  | createSell tradeId newId sd =>
    simp only [validOp, Bool.and_eq_true, decide_eq_true_eq, List.all_eq_true,
      Bool.not_eq_true'] at hv
    refine ledgerOK_sellSubmit trades (some tradeId) none newId sd hok hv.1 ?_
    intro _ t ht hmem
    have h2 : (t.sells.map Sell.id).contains newId = true := List.elem_iff.mpr hmem
    rw [hv.2 t ht] at h2
    exact Bool.false_ne_true h2
  | editSell tradeId sellId sd =>
    simp only [validOp, decide_eq_true_eq] at hv
    exact ledgerOK_sellSubmit trades none (some (sellId, tradeId)) 0 sd hok hv
      (fun hcontra => absurd hcontra (by simp))
  | deleteTrade tradeId => exact ledgerOK_filter trades _ hok
  | deleteSell tradeId sellId => exact ledgerOK_deleteSells trades tradeId _ hok
  | deleteBatchSell tradeId sellIds => exact ledgerOK_deleteSells trades tradeId _ hok
  | batchSell sel batchId genId bd =>
    simp only [validOp, List.all_eq_true, Bool.not_eq_true'] at hv
    refine ledgerOK_batchSell trades sel batchId genId bd hok ?_
    intro t ht hmem
    have h2 : (t.sells.map Sell.id).contains (genId t.id) = true := List.elem_iff.mpr hmem
    rw [hv t ht] at h2
    exact Bool.false_ne_true h2
  | deleteBatch batchId => exact ledgerOK_filter trades _ hok

theorem ledgerOK_applyOps (ops : List Op) :
    ∀ trades : List Trade, LedgerOK trades → validSeq trades ops = true →
      (∀ op ∈ ops, isEditTradeOp op = false) → LedgerOK (applyOps trades ops) := by
  induction ops with
  | nil =>
    intro trades hok _ _
    exact hok
  | cons op ops ih =>
    intro trades hok hv hne
    rw [validSeq, Bool.and_eq_true] at hv
    have hok' := ledgerOK_applyOp trades op hok hv.1 (hne op (List.mem_cons_self op ops))
    have hrest := ih (applyOp trades op) hok' hv.2
      (fun o ho => hne o (List.mem_cons_of_mem op ho))
    simpa [applyOps, List.foldl_cons] using hrest

set_option maxRecDepth 8000 in
/-- C2 counterexample: a valid create-lot, a valid full sell, then a valid
edit-lot replacing the quantity by 5 yields a ledger where the sold total 10
exceeds the lot's quantity plus the 1e-5 tolerance. -/
theorem C2_counterexample :
    validSeq [] opsC2 = true ∧
      ∃ t ∈ applyOps [] opsC2, t.quantity + sellEps < soldWeight t := by
  with_unfolding_all decide

/-- C2 (amended): starting from any well-formed ledger, after any sequence of
valid operations that contains no edit-lot, every lot satisfies
soldWeight ≤ quantity + 1e-5; an edit-lot is applied without re-validation and
can break the invariant. -/
theorem C2_invariant_without_editTrade (trades : List Trade) (ops : List Op)
    (hok : LedgerOK trades) (hv : validSeq trades ops = true)
    (hne : ∀ op ∈ ops, isEditTradeOp op = false) :
    Inv (applyOps trades ops) := by
  have h := ledgerOK_applyOps ops trades hok hv hne
  intro t ht
  exact (h.2 t ht).2.2

set_option maxRecDepth 8000 in
/-- C2 witness: a concrete valid sequence exercising create, sell, delete,
batch sell and batch delete keeps the invariant. -/
theorem C2_witness : LedgerOK ([] : List Trade) ∧ Inv (applyOps [] opsC2ok) := by
  refine ⟨by with_unfolding_all decide, ?_⟩
  exact C2_invariant_without_editTrade [] opsC2ok (by with_unfolding_all decide)
    (by with_unfolding_all decide) (by with_unfolding_all decide)

end GoldTrade
